import Mathlib

/-!
# MINIPULS3 Controller — formal model of the core

A shallow embedding of the core of `src/main.py`: the program data model
(Phase/Cycle steps), the sequence flattener `_flatten_sequence_for_plot`,
total-duration computation `_calculate_total_duration`, the phase driver
`_execute_phase` (tick-indexed, pauses and stop signals elided), the serial
connect handshake `MinipulsController._connect`, the phase-dialog validation
`AddPhaseDialog.on_ok`, and the file loader `_load_sequence`.

Python floats are modelled as exact rationals (`ℚ`); Python `int()` on a
float (truncation toward zero) and `round()` (banker's rounding) are modelled
explicitly.  Logging side effects are modelled as an explicit log list in the
loop state; a raised exception is modelled as a flag on the result.
-/

namespace Minipuls

/-- Pump direction of a Phase step (`direction` field, `"Forward"`/`"Backward"`). -/
inductive Direction where
  | forward
  | backward
deriving DecidableEq

/-- Speed mode of a Phase step (`mode` field, `"Fixed"`/`"Ramp"`). -/
inductive SpeedMode where
  | fixed
  | ramp
deriving DecidableEq

/-- Duration unit string of a Phase step; any string other than
`"s"`/`"min"`/`"hr"` falls back to factor 1 via `dict.get(unit, 1)`. -/
inductive DurationUnit where
  | s
  | min
  | hr
  | other
deriving DecidableEq

/-- A `Phase` step dict.  `update_interval` is optional in the dict
(`phase.get('update_interval', 1.0)`), hence `Option ℚ`. -/
structure PhaseData where
  direction : Direction
  mode : SpeedMode
  rpm : ℚ
  duration : ℚ
  unit : DurationUnit
  update_interval : Option ℚ
  enabled : Bool
deriving DecidableEq

/-- A `Cycle` step dict.  `end_phase` is descriptive only; the flattener
jumps to `start_phase`. -/
structure CycleData where
  start_phase : ℤ
  end_phase : ℤ
  repeats : ℤ
  enabled : Bool
deriving DecidableEq

/-- One entry of `sequence_data`: a tagged step dict. -/
inductive PStep where
  | phase (p : PhaseData)
  | cycle (c : CycleData)
deriving DecidableEq

/-- `instr.get("enabled", True)`. -/
def stepEnabled : PStep → Bool
  | .phase p => p.enabled
  | .cycle c => c.enabled

/-- Lookup in the `cycle_counters` dict (`pc in cycle_counters` /
`cycle_counters[pc]`), modelled as an association list. -/
def lookupC : List (ℕ × ℤ) → ℕ → Option ℤ
  | [], _ => none
  | (k, v) :: m, i => if k = i then some v else lookupC m i

/-- `cycle_counters[pc] -= 1`. -/
def decC : List (ℕ × ℤ) → ℕ → List (ℕ × ℤ)
  | [], _ => []
  | (k, v) :: m, i => if k = i then (k, v - 1) :: decC m i else (k, v) :: decC m i

/-- `del cycle_counters[pc]`. -/
def delC : List (ℕ × ℤ) → ℕ → List (ℕ × ℤ)
  | [], _ => []
  | (k, v) :: m, i => if k = i then delC m i else (k, v) :: delC m i

/-- The local state of the `while` loop in `_flatten_sequence_for_plot`:
the accumulated `flat_list` (kept reversed for cheap append), the program
counter `pc`, the `iterations` count, the `cycle_counters` map, and the
invalid-start-phase numbers passed to `self._log(..., "ERROR")`. -/
structure LoopState where
  flatRev : List PhaseData
  pc : ℕ
  iterations : ℕ
  counters : List (ℕ × ℤ)
  invalidLog : List ℤ
deriving DecidableEq

/-- Result of one execution of the loop body: continue looping, or `break`
out of the loop (invalid jump target). -/
inductive StepRes where
  | cont (s : LoopState)
  | brk (s : LoopState)
deriving DecidableEq

/-- The iteration ceiling `MAX_ITER` in `_flatten_sequence_for_plot`. -/
def MAX_ITER : ℕ := 10000

/-- One pass of the `while` body of `_flatten_sequence_for_plot`.  The two
`continue` branches for skipped steps advance `pc` without touching
`iterations`; the Phase and Cycle branches end with `iterations += 1`.
The invalid-target branch logs the offending `start_phase` and breaks,
leaving `pc` and `iterations` unchanged (the decrement of the counter has
already happened). -/
def loopBody (seq : List PStep) (includeDisabled onlyDisabled : Bool) (s : LoopState) :
    StepRes :=
  match seq.get? s.pc with
  | none => StepRes.cont { s with pc := s.pc + 1 }
  | some instr =>
    if onlyDisabled && stepEnabled instr then StepRes.cont { s with pc := s.pc + 1 }
    else if !includeDisabled && !stepEnabled instr then StepRes.cont { s with pc := s.pc + 1 }
    else
      match instr with
      | PStep.phase p =>
          StepRes.cont { s with flatRev := p :: s.flatRev, pc := s.pc + 1,
                                iterations := s.iterations + 1 }
      | PStep.cycle c =>
          if c.enabled then
            let cnt : ℤ := (lookupC s.counters s.pc).getD c.repeats
            let counters1 :=
              if (lookupC s.counters s.pc).isNone then (s.pc, c.repeats) :: s.counters
              else s.counters
            if 0 < cnt then
              let counters2 := decC counters1 s.pc
              if 0 ≤ c.start_phase - 1 ∧ c.start_phase - 1 < (seq.length : ℤ) then
                StepRes.cont { s with counters := counters2,
                                      pc := (c.start_phase - 1).toNat,
                                      iterations := s.iterations + 1 }
              else
                StepRes.brk { s with counters := counters2,
                                     invalidLog := s.invalidLog ++ [c.start_phase] }
            else
              StepRes.cont { s with counters := delC counters1 s.pc, pc := s.pc + 1,
                                    iterations := s.iterations + 1 }
          else StepRes.cont { s with pc := s.pc + 1, iterations := s.iterations + 1 }

/-- The `while pc < len(self.sequence_data) and iterations < MAX_ITER` loop,
fuel-indexed, returning the final loop state and whether the loop ended
through `break`.  Tail-recursive.  `flattenFuel` below always supplies
enough fuel for the loop to run to completion. -/
def runLoop (seq : List PStep) (includeDisabled onlyDisabled : Bool) :
    ℕ → LoopState → LoopState × Bool
  | 0, s => (s, false)
  | f + 1, s =>
    if s.pc < seq.length ∧ s.iterations < MAX_ITER then
      match loopBody seq includeDisabled onlyDisabled s with
      | StepRes.cont s' => runLoop seq includeDisabled onlyDisabled f s'
      | StepRes.brk s' => (s', true)
    else (s, false)

/-- The list of loop states at which the body of the flatten loop ran, in
order — the same iteration as `runLoop`, observed rather than folded. -/
def runTrace (seq : List PStep) (includeDisabled onlyDisabled : Bool) :
    ℕ → LoopState → List LoopState
  | 0, _ => []
  | f + 1, s =>
    if s.pc < seq.length ∧ s.iterations < MAX_ITER then
      match loopBody seq includeDisabled onlyDisabled s with
      | StepRes.cont s' => s :: runTrace seq includeDisabled onlyDisabled f s'
      | StepRes.brk _ => [s]
    else []

/-- Enough fuel for the flatten loop: each body pass either increments
`iterations` (at most `MAX_ITER` times) or advances `pc` without a jump
(at most `seq.length` consecutive times). -/
def flattenFuel (seq : List PStep) : ℕ :=
  MAX_ITER * (seq.length + 1) + seq.length + 1

/-- `flat_list, pc, iterations, cycle_counters = [], 0, 0, {}`. -/
def initState : LoopState := ⟨[], 0, 0, [], []⟩

/-- The full run of the flattening loop from the initial state: final state
and whether the loop ended through `break`. -/
def flattenRun (seq : List PStep) (includeDisabled onlyDisabled : Bool) :
    LoopState × Bool :=
  runLoop seq includeDisabled onlyDisabled (flattenFuel seq) initState

/-- The full trace of the flattening loop from the initial state. -/
def flattenTrace (seq : List PStep) (includeDisabled onlyDisabled : Bool) :
    List LoopState :=
  runTrace seq includeDisabled onlyDisabled (flattenFuel seq) initState

/-- Observable outcome of `_flatten_sequence_for_plot`: whether
`RecursionError("Sequence flattening limit reached")` was raised, the
returned `flat_list` (empty when raised — nothing is returned), and the
invalid-start-phase error log. -/
structure FlattenResult where
  raised : Bool
  flat : List PhaseData
  invalidLog : List ℤ
deriving DecidableEq

/-- `_flatten_sequence_for_plot(include_disabled, only_disabled)`: run the
loop; afterwards `if iterations >= MAX_ITER: raise RecursionError`. -/
def flatten_sequence_for_plot (seq : List PStep) (includeDisabled onlyDisabled : Bool) :
    FlattenResult :=
  let r := (flattenRun seq includeDisabled onlyDisabled).1
  if MAX_ITER ≤ r.iterations then ⟨true, [], r.invalidLog⟩
  else ⟨false, r.flatRev.reverse, r.invalidLog⟩

/-- `{'s': 1, 'min': 60, 'hr': 3600}.get(unit, 1)`. -/
def unitFactor : DurationUnit → ℚ
  | .s => 1
  | .min => 60
  | .hr => 3600
  | .other => 1

/-- `_calculate_total_duration(include_disabled)`: sum of
`s['duration'] * {'s':1,'min':60,'hr':3600}.get(s['unit'],1)` over the
flattened list; a `RecursionError` from the flattener is caught and the
function returns `0`. -/
def calculate_total_duration (seq : List PStep) (includeDisabled : Bool) : ℚ :=
  let r := flatten_sequence_for_plot seq includeDisabled false
  if r.raised then 0
  else (r.flat.map (fun p => p.duration * unitFactor p.unit)).sum

/-- Python `int()` applied to a float value: truncation toward zero. -/
def pyInt (q : ℚ) : ℤ := if 0 ≤ q then ⌊q⌋ else ⌈q⌉

/-- Python `round()` to an integer: round half to even (banker's rounding). -/
def pyRound (q : ℚ) : ℤ :=
  let f : ℤ := ⌊q⌋
  let frac : ℚ := q - f
  if frac < 1 / 2 then f
  else if 1 / 2 < frac then f + 1
  else if f % 2 = 0 then f else f + 1

/-- Zero-pad a digit string on the left to width `w`. -/
def padZeros (w : ℕ) (t : String) : String :=
  if t.length < w then String.mk (List.replicate (w - t.length) '0') ++ t else t

/-- Python `f"{n:03}"`: zero-pad to total width 3, the sign included. -/
def pyFormat03 (n : ℤ) : String :=
  if 0 ≤ n then padZeros 3 (toString n.toNat)
  else "-" ++ padZeros 2 (toString (-n).toNat)

/-- The speed-set command text as built everywhere in `main.py`:
`f"R{int(x * 100):03}"`. -/
def speed_command (rpm : ℚ) : String := "R" ++ pyFormat03 (pyInt (rpm * 100))

/-- Modelled from the spec: the speed-set command text as §6 of the spec
describes it, `R` followed by `round(rpm*100)` zero-padded to 3 digits
(Python `round`, i.e. nearest integer).  For comparison with
`speed_command`, which embeds the source. -/
def speed_command_spec (rpm : ℚ) : String := "R" ++ pyFormat03 (pyRound (rpm * 100))

/-- Direction command text: `K>` forward, `K<` backward. -/
def direction_command : Direction → String
  | .forward => "K>"
  | .backward => "K<"

/-- Commands sent by `_manual_start_fwd` (speed then direction). -/
def manual_start_fwd (rpm : ℚ) : List String := [speed_command rpm, "K>"]

/-- Commands sent by `_manual_start_rev`. -/
def manual_start_rev (rpm : ℚ) : List String := [speed_command rpm, "K<"]

/-- `duration_s = phase['duration'] * {'s':1,'min':60,'hr':3600}.get(unit, 1)`. -/
def durationSeconds (p : PhaseData) : ℚ := p.duration * unitFactor p.unit

/-- Number of passes of the `while elapsed < duration_s` loop in
`_execute_phase` when never paused or stopped: `elapsed` starts at 0 and
grows by `PROGRESS_INTERVAL = 0.1` per pass, so the loop body runs for
`elapsed = 0.1, 0.2, ...` as long as the previous value was `< duration_s`. -/
def numTicks (d : ℚ) : ℕ := (⌈d * 10⌉).toNat

/-- The guard `int(elapsed / update_interval) > int((elapsed - PROGRESS_INTERVAL)
/ update_interval)` at the tick with `elapsed = k / 10`. -/
def rampSend (ui : ℚ) (k : ℕ) : Bool :=
  decide (pyInt (((k : ℚ) - 1) / 10 / ui) < pyInt ((k : ℚ) / 10 / ui))

/-- One yielded sample of `_execute_phase`: `(elapsed, commanded rpm)` plus
the speed commands sent during that pass. -/
structure TickSample where
  elapsed : ℚ
  rpm : ℚ
  cmds : List String
deriving DecidableEq

/-- The `k`-th (1-based) pass of the tick loop in `_execute_phase`.  Fixed
mode commands the phase target every tick and sends nothing inside the loop;
Ramp mode interpolates `start_rpm + (rpm - start_rpm) * (elapsed / duration_s)`
(`progress = 1` if `duration_s ≤ 0`) and sends a speed command exactly when
the `update_interval` boundary count increases. -/
def execTick (p : PhaseData) (start_rpm : ℚ) (k : ℕ) : TickSample :=
  let d := durationSeconds p
  let elapsed : ℚ := (k : ℚ) / 10
  match p.mode with
  | .fixed => ⟨elapsed, p.rpm, []⟩
  | .ramp =>
    let ui := p.update_interval.getD 1
    let progress : ℚ := if 0 < d then elapsed / d else 1
    let rpm := start_rpm + (p.rpm - start_rpm) * progress
    ⟨elapsed, rpm, if rampSend ui k then [speed_command rpm] else []⟩

/-- Full observable command/sample behaviour of `_execute_phase` on one
phase, never paused or stopped: the commands sent before the loop (direction,
and for Fixed mode the speed), the tick samples, and the final speed command
sent after the loop. -/
structure PhaseExec where
  preCmds : List String
  ticks : List TickSample
  postCmds : List String
deriving DecidableEq

/-- `_execute_phase(phase)` with `start_rpm = self.current_rpm`. -/
def execute_phase (p : PhaseData) (start_rpm : ℚ) : PhaseExec :=
  let d := durationSeconds p
  ⟨ direction_command p.direction ::
      (match p.mode with
       | .fixed => [speed_command p.rpm]
       | .ramp => []),
    (List.range (numTicks d)).map (fun i => execTick p start_rpm (i + 1)),
    [speed_command p.rpm] ⟩

/-- Number of ticks among the first `n` that sent a speed command. -/
def sendCount (p : PhaseData) (start_rpm : ℚ) (n : ℕ) : ℕ :=
  (((execute_phase p start_rpm).ticks.take n).countP (fun t => !t.cmds.isEmpty))

/-- Status field of a Transport Worker result message. -/
inductive ResultStatus where
  | connected
  | disconnected
  | error
deriving DecidableEq

/-- Observable outcome of `MinipulsController._connect`: the emitted result
status and whether an open serial handle is retained (`self.ser`). -/
structure ConnectOutcome where
  status : ResultStatus
  serOpen : Bool
deriving DecidableEq

/-- `bytes([config["unit_id"] + 128])`: the connect byte. -/
def connect_byte (unit_id : ℕ) : ℕ := unit_id + 128

/-- `MinipulsController._connect`.  `openOk = false` models a
`serial.SerialException` (open or I/O failure): caught, `self.ser = None`,
an `error` result is emitted.  `echo` models `self.ser.read(1)`: `some b`
for a 1-byte echo, `none` for an empty read (timeout).  On an echo equal to
the connect byte a `connected` result is emitted and the handle kept; on any
other outcome the port is closed, the handle dropped, and `error` emitted. -/
def controller_connect (unit_id : ℕ) (openOk : Bool) (echo : Option ℕ) : ConnectOutcome :=
  if openOk then
    if echo = some (connect_byte unit_id) then ⟨.connected, true⟩
    else ⟨.error, false⟩
  else ⟨.error, false⟩

/-- `AddPhaseDialog.on_ok`: parse the fields, reject unless
`0 <= rpm <= 48 and duration >= 0`, and for Ramp mode additionally require
`update_interval > 0`; on success produce the Phase dict appended to the
program (`update_interval` present only for Ramp). -/
def add_phase_on_ok (direction : Direction) (mode : SpeedMode) (rpm duration : ℚ)
    (unit : DurationUnit) (update_interval : ℚ) (enabled : Bool) : Option PhaseData :=
  if 0 ≤ rpm ∧ rpm ≤ 48 ∧ 0 ≤ duration then
    if mode = SpeedMode.ramp then
      if 0 < update_interval then
        some ⟨direction, mode, rpm, duration, unit, some update_interval, enabled⟩
      else none
    else some ⟨direction, mode, rpm, duration, unit, none, enabled⟩
  else none

/-- `_load_sequence`: `self.sequence_data = json.load(f)` — the parsed step
list is installed as the program with no validation of any field. -/
def load_sequence (steps : List PStep) : List PStep := steps

/-! ## Concrete example programs used by witnesses and counterexamples -/

/-- A plain enabled fixed phase used in example programs. -/
def phW : PhaseData := ⟨.forward, .fixed, 10, 1, .s, none, true⟩

/-- One enabled Phase followed by one enabled Cycle jumping back to it
`r` times: the flattening loop performs exactly `2*r + 2` counted
iterations before `pc` passes the end. -/
def phaseCycleSeq (r : ℕ) : List PStep :=
  [PStep.phase phW, PStep.cycle ⟨1, 1, (r : ℤ), (true : Bool)⟩]

/-- The loop state after `j` complete (Phase, Cycle-jump) rounds of
`phaseCycleSeq r`. -/
def phaseCycleState (r j : ℕ) : LoopState :=
  ⟨List.replicate j phW, 0, 2 * j,
   if j = 0 then [] else [(1, (r : ℤ) - (j : ℤ))], []⟩

/-- The loop state of `phaseCycleSeq r` after the Phase pass of round `j`,
with the program counter on the Cycle. -/
def phaseCycleMid (r j : ℕ) : LoopState :=
  ⟨phW :: List.replicate j phW, 1, 2 * j + 1,
   if j = 0 then [] else [(1, (r : ℤ) - (j : ℤ))], []⟩

/-- The final loop state of `phaseCycleSeq r`: the expansion is complete
(`pc = 2` past the end) after exactly `2r + 2` counted iterations. -/
def phaseCycleFinal (r : ℕ) : LoopState :=
  ⟨List.replicate (r + 1) phW, 2, 2 * r + 2, [], []⟩

/-- A single enabled Cycle whose `start_phase` (5) is out of bounds. -/
def invalidTargetSeq : List PStep := [PStep.cycle ⟨5, 5, 1, (true : Bool)⟩]

/-- Phase, Cycle A (back to 1, one repeat), Cycle B (back to 1, one repeat):
Cycle B's jump re-enters Cycle A after A's counter was deleted, so A's
counter re-initializes and A jumps a second time. -/
def reenterSeq : List PStep :=
  [PStep.phase phW,
   PStep.cycle ⟨1, 1, 1, (true : Bool)⟩,
   PStep.cycle ⟨1, 1, 1, (true : Bool)⟩]

/-- Phase followed by a Cycle with three repeats, all targets in bounds. -/
def threeRepeatSeq : List PStep :=
  [PStep.phase phW, PStep.cycle ⟨1, 1, 3, (true : Bool)⟩]

/-- A 2-minute enabled phase and a 30-second enabled phase. -/
def twoPhaseSeq : List PStep :=
  [PStep.phase ⟨.forward, .fixed, 10, 2, .min, none, true⟩,
   PStep.phase ⟨.forward, .fixed, 5, 30, .s, none, true⟩]

/-- A Ramp phase from the current RPM to 24 over 10 s. -/
def rampTenSeconds : PhaseData := ⟨.forward, .ramp, 24, 10, .s, some 1, true⟩

/-- A Ramp phase of 0.55 s: its final tick has `elapsed = 0.6 > 0.55`. -/
def rampOddDuration : PhaseData := ⟨.forward, .ramp, 24, 11 / 20, .s, some 1, true⟩

/-- A Ramp phase of 0.4 s with `update_interval = 0.15`. -/
def rampShortInterval : PhaseData :=
  ⟨.forward, .ramp, 24, 2 / 5, .s, some (3 / 20), true⟩

/-- A Phase with `rpm = 100`, as a persisted file can contain it. -/
def overRpmPhase : PhaseData := ⟨.forward, .fixed, 100, 10, .s, none, true⟩

/-- The Phase produced by the dialog from valid inputs (rpm 10, 60 s). -/
def validPhase : PhaseData := ⟨.forward, .fixed, 10, 60, .s, none, true⟩

/-! ## Counting the flattener's per-Cycle events -/

/-- The Cycle at program position `i`, when there is one. -/
def cycleAt (seq : List PStep) (i : ℕ) : Option CycleData :=
  match seq.get? i with
  | some (PStep.cycle c) => some c
  | _ => none

/-- The loop body at state `s` lazily initializes the counter of the Cycle
at position `i`: the program counter is at `i`, the step there is an enabled
Cycle that the skip rules let through (`only_disabled` off), and position
`i` has no counter yet. -/
def initEvent (seq : List PStep) (onlyDisabled : Bool) (i : ℕ) (s : LoopState) : Bool :=
  s.pc == i &&
  (match cycleAt seq i with
   | some c => c.enabled && !onlyDisabled
   | none => false) &&
  (lookupC s.counters i).isNone

/-- The loop body at state `s` jumps the program counter to the
`start_phase - 1` target of the Cycle at position `i`: the counter in effect
(lazily the Cycle's `repeats`) is positive and the target is in bounds. -/
def jumpEvent (seq : List PStep) (onlyDisabled : Bool) (i : ℕ) (s : LoopState) : Bool :=
  s.pc == i &&
  (match cycleAt seq i with
   | some c => c.enabled && !onlyDisabled &&
       decide (0 < (lookupC s.counters i).getD c.repeats) &&
       decide (0 ≤ c.start_phase - 1 ∧ c.start_phase - 1 < (seq.length : ℤ))
   | none => false)

/-- How many times a full flatten run lazily initializes the counter of the
Cycle at position `i`. -/
def initsAt (seq : List PStep) (includeDisabled onlyDisabled : Bool) (i : ℕ) : ℕ :=
  (flattenTrace seq includeDisabled onlyDisabled).countP (initEvent seq onlyDisabled i)

/-- How many times a full flatten run jumps the program counter to the
`start_phase - 1` target of the Cycle at position `i`. -/
def jumpsAt (seq : List PStep) (includeDisabled onlyDisabled : Bool) (i : ℕ) : ℕ :=
  (flattenTrace seq includeDisabled onlyDisabled).countP (jumpEvent seq onlyDisabled i)

/-- The counter value left at position `i` when the flatten run ends
(0 when the counter is absent). -/
def finalCounterAt (seq : List PStep) (includeDisabled onlyDisabled : Bool) (i : ℕ) : ℤ :=
  (lookupC (flattenRun seq includeDisabled onlyDisabled).1.counters i).getD 0

/-! ## Claim C6 — connect handshake -/

/-- C6 (confirmed): for every connect command in the faithful domain of
`bytes([unit_id + 128])`, the outcome is `connected` exactly when the port
opened and the single byte read back equals the connect byte
`unit_id + 128`; in every other case (open failure, echo mismatch, or a
timed-out read modelled as `echo = none`) the worker emits `error` and
retains no open handle. -/
theorem connect_handshake_outcome (unit_id : ℕ) (openOk : Bool) (echo : Option ℕ)
    (_hbyte : connect_byte unit_id ≤ 255) :
    ((controller_connect unit_id openOk echo).status = ResultStatus.connected ↔
      openOk = true ∧ echo = some (connect_byte unit_id)) ∧
    ((controller_connect unit_id openOk echo).status ≠ ResultStatus.connected →
      (controller_connect unit_id openOk echo).status = ResultStatus.error ∧
      (controller_connect unit_id openOk echo).serOpen = false) := by
  unfold controller_connect
  cases openOk <;> by_cases he : echo = some (connect_byte unit_id) <;> simp [he]

/-- Witness for C6 at `unit_id = 30`: the connect byte is 158 and a 1-byte
echo of 158 yields `connected`. -/
theorem connect_handshake_outcome_witness :
    connect_byte 30 ≤ 255 ∧ connect_byte 30 = 158 ∧
    ((controller_connect 30 true (some 158)).status = ResultStatus.connected ↔
      (true : Bool) = true ∧ (some 158 : Option ℕ) = some (connect_byte 30)) :=
  ⟨by decide, by decide, (connect_handshake_outcome 30 true (some 158) (by decide)).1⟩

/-! ## Claim C2 — RPM validation -/

/-- C2 (amended): the phase-edit dialog path does validate: every Phase the
dialog accepts has `0 ≤ rpm ≤ 48` and `0 ≤ duration`.  (The file-load path
performs no such validation; see the counterexample.) -/
theorem dialog_validation_bounds_rpm (direction : Direction) (mode : SpeedMode)
    (rpm duration : ℚ) (unit : DurationUnit) (update_interval : ℚ) (enabled : Bool)
    (p : PhaseData)
    (h : add_phase_on_ok direction mode rpm duration unit update_interval enabled = some p) :
    0 ≤ p.rpm ∧ p.rpm ≤ 48 ∧ 0 ≤ p.duration := by
  unfold add_phase_on_ok at h
  split at h
  case isTrue hc =>
    split at h
    · split at h
      · simp only [Option.some.injEq] at h
        subst h
        exact hc
      · exact absurd h (by simp)
    · simp only [Option.some.injEq] at h
      subst h
      exact hc
  case isFalse hc => exact absurd h (by simp)

/-- Witness for C2's amended theorem on concrete valid dialog inputs. -/
theorem dialog_validation_bounds_rpm_witness :
    add_phase_on_ok Direction.forward SpeedMode.fixed 10 60 DurationUnit.s 1 true =
      some validPhase ∧
    (0 ≤ validPhase.rpm ∧ validPhase.rpm ≤ 48 ∧ 0 ≤ validPhase.duration) :=
  ⟨by decide, dialog_validation_bounds_rpm Direction.forward SpeedMode.fixed 10 60
    DurationUnit.s 1 true validPhase (by decide)⟩

/-- Counterexample to C2 as stated: `_load_sequence` installs the parsed
file content with no validation, so a Phase with `rpm = 100 > 48` from a
persisted program file reaches the flattener unchanged. -/
theorem load_unvalidated_rpm_reaches_flattener :
    load_sequence [PStep.phase overRpmPhase] = [PStep.phase overRpmPhase] ∧
    (flatten_sequence_for_plot (load_sequence [PStep.phase overRpmPhase]) false false).flat =
      [overRpmPhase] ∧
    48 < overRpmPhase.rpm :=
  ⟨rfl, by decide, by norm_num [overRpmPhase]⟩

/-! ## Claim C3 — speed-set command text -/

/-- C3 (amended): the speed-set command text is `R` followed by the
zero-padded **truncation** `int(rpm * 100)` — equal to `⌊rpm * 100⌋` for the
nonnegative RPMs of a validated phase — not the rounding the spec states;
this one format is used by the fixed-phase commands of `_execute_phase` and
by the manual start buttons. -/
theorem speed_command_format (r : ℚ) (p : PhaseData) (hr : 0 ≤ r)
    (hm : p.mode = SpeedMode.fixed) :
    speed_command r = "R" ++ pyFormat03 ⌊r * 100⌋ ∧
    manual_start_fwd r = [speed_command r, "K>"] ∧
    manual_start_rev r = [speed_command r, "K<"] ∧
    (execute_phase p r).preCmds = [direction_command p.direction, speed_command p.rpm] ∧
    (execute_phase p r).postCmds = [speed_command p.rpm] := by
  refine ⟨?_, rfl, rfl, ?_, rfl⟩
  · unfold speed_command pyInt
    rw [if_pos (mul_nonneg hr (by norm_num : (0:ℚ) ≤ 100))]
  · simp [execute_phase, hm]

/-- Witness for C3's amended theorem at `rpm = 0.126`, where the command is
`R012`. -/
theorem speed_command_format_witness :
    (0 : ℚ) ≤ 63 / 500 ∧ phW.mode = SpeedMode.fixed ∧
    speed_command (63 / 500) = "R" ++ pyFormat03 ⌊(63 / 500 : ℚ) * 100⌋ ∧
    speed_command (63 / 500) = "R012" := by
  refine ⟨by norm_num, rfl, (speed_command_format (63 / 500) phW (by norm_num) rfl).1, ?_⟩
  have h : pyInt ((63 / 500 : ℚ) * 100) = 12 := by
    rw [pyInt, if_pos (by norm_num : (0:ℚ) ≤ 63 / 500 * 100),
      show ((63:ℚ) / 500 * 100) = 63 / 5 by norm_num]
    rw [Int.floor_eq_iff]; norm_num
  rw [speed_command, h]
  decide

/-- Counterexample to C3 as stated: at `rpm = 0.126` the code's command
(truncating `int(rpm*100)`) is `R012`, while the spec's
`round(rpm*100)` gives `R013`. -/
theorem speed_command_truncates_not_rounds :
    speed_command (63 / 500) = "R012" ∧ speed_command_spec (63 / 500) = "R013" ∧
    speed_command (63 / 500) ≠ speed_command_spec (63 / 500) := by
  have h1 : pyInt ((63 / 500 : ℚ) * 100) = 12 := by
    rw [pyInt, if_pos (by norm_num : (0:ℚ) ≤ 63 / 500 * 100),
      show ((63:ℚ) / 500 * 100) = 63 / 5 by norm_num]
    rw [Int.floor_eq_iff]; norm_num
  have h2 : pyRound ((63 / 500 : ℚ) * 100) = 13 := by
    have hf : (⌊(63 / 500 : ℚ) * 100⌋ : ℤ) = 12 := by
      rw [show ((63:ℚ) / 500 * 100) = 63 / 5 by norm_num]
      rw [Int.floor_eq_iff]; norm_num
    rw [pyRound]
    rw [hf]
    norm_num
  refine ⟨by rw [speed_command, h1]; decide, by rw [speed_command_spec, h2]; decide, ?_⟩
  rw [speed_command, h1, speed_command_spec, h2]
  decide

/-! ## Claim C8 — total planned duration -/

/-- C8 (confirmed): when flattening succeeds, the total planned duration is
the sum over the flattened segments of `duration × unit factor`, with
`s → 1`, `min → 60`, `hr → 3600`. -/
theorem total_duration_sums_segment_seconds (seq : List PStep) (includeDisabled : Bool)
    (h : (flatten_sequence_for_plot seq includeDisabled false).raised = false) :
    calculate_total_duration seq includeDisabled =
      ((flatten_sequence_for_plot seq includeDisabled false).flat.map
        (fun p => p.duration * unitFactor p.unit)).sum ∧
    unitFactor DurationUnit.s = 1 ∧ unitFactor DurationUnit.min = 60 ∧
    unitFactor DurationUnit.hr = 3600 := by
  refine ⟨?_, rfl, rfl, rfl⟩
  simp [calculate_total_duration, h]

/-- Witness for C8: one 2-minute phase plus one 30-second phase totals
exactly 150 s. -/
theorem total_duration_sums_segment_seconds_witness :
    (flatten_sequence_for_plot twoPhaseSeq false false).raised = false ∧
    calculate_total_duration twoPhaseSeq false =
      ((flatten_sequence_for_plot twoPhaseSeq false false).flat.map
        (fun p => p.duration * unitFactor p.unit)).sum ∧
    calculate_total_duration twoPhaseSeq false = 150 := by
  refine ⟨by decide, (total_duration_sums_segment_seconds twoPhaseSeq false (by decide)).1, ?_⟩
  have h : flatten_sequence_for_plot twoPhaseSeq false false =
      ⟨false, [⟨.forward, .fixed, 10, 2, .min, none, true⟩,
               ⟨.forward, .fixed, 5, 30, .s, none, true⟩], []⟩ := by decide
  rw [calculate_total_duration, h]
  norm_num [unitFactor]

/-! ## Ramp tick lemmas (claims C4, C9) -/

/-- `int()` is `⌊⌋` on nonnegative values. -/
theorem pyInt_eq_floor {q : ℚ} (h : 0 ≤ q) : pyInt q = ⌊q⌋ := if_pos h

/-- The `i`-th element of the tick list is the `(i+1)`-st tick. -/
theorem execute_phase_ticks_get (p : PhaseData) (start : ℚ) (i : ℕ)
    (hi : i < numTicks (durationSeconds p)) :
    (execute_phase p start).ticks[i]? = some (execTick p start (i + 1)) := by
  simp [execute_phase, List.getElem?_map, List.getElem?_range, hi]

/-- In Ramp mode the `k`-th tick's commanded RPM and elapsed time. -/
theorem execTick_ramp (p : PhaseData) (start : ℚ) (k : ℕ)
    (hm : p.mode = SpeedMode.ramp) (hd : 0 < durationSeconds p) :
    (execTick p start k).elapsed = (k : ℚ) / 10 ∧
    (execTick p start k).rpm =
      start + (p.rpm - start) * (((k : ℚ) / 10) / durationSeconds p) ∧
    (execTick p start k).cmds =
      (if rampSend (p.update_interval.getD 1) k then
        [speed_command (start + (p.rpm - start) * (((k : ℚ) / 10) / durationSeconds p))]
       else []) := by
  rw [execTick, hm]
  simp only [if_pos hd]
  exact ⟨trivial, trivial, trivial⟩

/-- A tick index below `numTicks d` has `(i+1)/10 < d + 1/10`. -/
theorem tick_elapsed_lt (d : ℚ) (i : ℕ) (_hd : 0 < d) (hi : i < numTicks d) :
    ((i : ℚ) + 1) / 10 < d + 1 / 10 := by
  have h1 : (i : ℤ) < ⌈d * 10⌉ := by
    have := hi
    rw [numTicks] at this
    exact Int.lt_toNat.mp this
  have h2 : ((i : ℚ) + 1) ≤ (⌈d * 10⌉ : ℚ) := by
    have : ((i : ℤ) + 1 : ℤ) ≤ ⌈d * 10⌉ := h1
    exact_mod_cast this
  have h3 : ((⌈d * 10⌉ : ℤ) : ℚ) < d * 10 + 1 := Int.ceil_lt_add_one (d * 10)
  linarith

/-- C4 (amended): during a Ramp phase with positive duration, every tick's
commanded RPM is exactly `start_rpm + (target_rpm − start_rpm) × (elapsed /
duration)` with `elapsed` the **unclamped** tick time `(i+1)/10`; `elapsed`
never exceeds the duration by a full tick period, but on the final tick it
can exceed the duration itself (see the counterexample), so the commanded
RPM can pass the target. -/
theorem ramp_rpm_formula (p : PhaseData) (start : ℚ) (i : ℕ)
    (hm : p.mode = SpeedMode.ramp) (hd : 0 < durationSeconds p)
    (hi : i < numTicks (durationSeconds p)) :
    (execute_phase p start).ticks[i]? = some (execTick p start (i + 1)) ∧
    (execTick p start (i + 1)).elapsed = ((i : ℚ) + 1) / 10 ∧
    (execTick p start (i + 1)).rpm =
      start + (p.rpm - start) * ((((i : ℚ) + 1) / 10) / durationSeconds p) ∧
    (execTick p start (i + 1)).elapsed < durationSeconds p + 1 / 10 := by
  obtain ⟨he, hr, -⟩ := execTick_ramp p start (i + 1) hm hd
  have hcast : (((i + 1 : ℕ) : ℚ)) = (i : ℚ) + 1 := by push_cast; ring
  refine ⟨execute_phase_ticks_get p start i hi, ?_, ?_, ?_⟩
  · rw [he, hcast]
  · rw [hr, hcast]
  · rw [he, hcast]
    exact tick_elapsed_lt (durationSeconds p) i hd hi

/-! ## Claim C9 — ramp command rate -/

/-- `sendCount` over Ramp ticks counts the `rampSend` guard. -/
theorem sendCount_eq_countP (p : PhaseData) (start : ℚ) (n : ℕ)
    (hm : p.mode = SpeedMode.ramp) (hn : n ≤ numTicks (durationSeconds p)) :
    sendCount p start n =
      (List.range n).countP (fun k => rampSend (p.update_interval.getD 1) (k + 1)) := by
  rw [sendCount]
  show (((List.range (numTicks (durationSeconds p))).map
    (fun i => execTick p start (i + 1))).take n).countP _ = _
  rw [← List.map_take, List.take_range, Nat.min_eq_left hn, List.countP_map]
  refine List.countP_congr ?_
  intro k _
  simp only [Function.comp_apply]
  rw [execTick, hm]
  cases hrs : rampSend (p.update_interval.getD 1) (k + 1) <;> simp [hrs]

/-- At most one speed command per completed `update_interval` boundary:
the number of sending ticks among the first `n` is bounded by
`⌊(n/10) / update_interval⌋`. -/
theorem countP_rampSend_le (ui : ℚ) (hu : 0 < ui) (n : ℕ) :
    (((List.range n).countP (fun k => rampSend ui (k + 1))) : ℤ) ≤
      ⌊((n : ℚ) / 10) / ui⌋ := by
  induction n with
  | zero => simp
  | succ n ih =>
    have hcast : (((n + 1 : ℕ) : ℚ)) = (n : ℚ) + 1 := by push_cast; ring
    have hmono : ⌊((n : ℚ) / 10) / ui⌋ ≤ ⌊(((n : ℚ) + 1) / 10) / ui⌋ := by
      apply Int.floor_le_floor
      have h10 : ((n : ℚ) / 10) ≤ (((n : ℚ) + 1) / 10) :=
        (div_le_div_iff_of_pos_right (by norm_num : (0 : ℚ) < 10)).mpr (by linarith)
      exact (div_le_div_iff_of_pos_right hu).mpr h10
    rw [List.range_succ, List.countP_append, List.countP_cons, List.countP_nil]
    cases hrs : rampSend ui (n + 1)
    · simp only [Bool.false_eq_true, if_false]
      push_cast
      linarith [ih, hmono]
    · have hlt : pyInt ((((n + 1 : ℕ) : ℚ) - 1) / 10 / ui) <
          pyInt (((n + 1 : ℕ) : ℚ) / 10 / ui) := by
        rw [rampSend] at hrs
        exact of_decide_eq_true hrs
      have ha : (((n + 1 : ℕ) : ℚ) - 1) = (n : ℚ) := by push_cast; ring
      rw [ha, hcast] at hlt
      have hn1 : (0 : ℚ) ≤ (n : ℚ) / 10 / ui := by positivity
      have hn2 : (0 : ℚ) ≤ ((n : ℚ) + 1) / 10 / ui := by positivity
      rw [pyInt_eq_floor hn1, pyInt_eq_floor hn2] at hlt
      simp only [if_true]
      push_cast
      linarith [ih, hlt]

/-- `numTicks` of the 10-second ramp is 100. -/
theorem numTicks_rampTenSeconds : numTicks (durationSeconds rampTenSeconds) = 100 := by
  have h : ⌈durationSeconds rampTenSeconds * 10⌉ = (100 : ℤ) := by
    rw [show durationSeconds rampTenSeconds * 10 = 100 by
      norm_num [durationSeconds, unitFactor, rampTenSeconds]]
    rw [Int.ceil_eq_iff]; norm_num
  rw [numTicks, h]
  decide

/-- `numTicks` of the 0.55-second ramp is 6. -/
theorem numTicks_rampOddDuration : numTicks (durationSeconds rampOddDuration) = 6 := by
  have h : ⌈durationSeconds rampOddDuration * 10⌉ = (6 : ℤ) := by
    rw [show durationSeconds rampOddDuration * 10 = 11 / 2 by
      norm_num [durationSeconds, unitFactor, rampOddDuration]]
    rw [Int.ceil_eq_iff]; norm_num
  rw [numTicks, h]
  decide

/-- `numTicks` of the 0.4-second ramp is 4. -/
theorem numTicks_rampShortInterval : numTicks (durationSeconds rampShortInterval) = 4 := by
  have h : ⌈durationSeconds rampShortInterval * 10⌉ = (4 : ℤ) := by
    rw [show durationSeconds rampShortInterval * 10 = 4 by
      norm_num [durationSeconds, unitFactor, rampShortInterval]]
    rw [Int.ceil_eq_iff]; norm_num
  rw [numTicks, h]
  decide

/-- Witness for C4 on the spec's own example: ramping from 0 to 24 over
10 s, the tick at the 5 s mark (`i = 49`) commands exactly 12 RPM. -/
theorem ramp_rpm_formula_witness :
    rampTenSeconds.mode = SpeedMode.ramp ∧ 0 < durationSeconds rampTenSeconds ∧
    49 < numTicks (durationSeconds rampTenSeconds) ∧
    ((execute_phase rampTenSeconds 0).ticks[49]? = some (execTick rampTenSeconds 0 50) ∧
     (execTick rampTenSeconds 0 50).elapsed = ((49 : ℚ) + 1) / 10 ∧
     (execTick rampTenSeconds 0 50).rpm =
       0 + (rampTenSeconds.rpm - 0) *
         ((((49 : ℚ) + 1) / 10) / durationSeconds rampTenSeconds) ∧
     (execTick rampTenSeconds 0 50).elapsed < durationSeconds rampTenSeconds + 1 / 10) ∧
    (execTick rampTenSeconds 0 50).elapsed = 5 ∧
    (execTick rampTenSeconds 0 50).rpm = 12 := by
  have hd : 0 < durationSeconds rampTenSeconds := by
    norm_num [durationSeconds, unitFactor, rampTenSeconds]
  have hi : 49 < numTicks (durationSeconds rampTenSeconds) := by
    rw [numTicks_rampTenSeconds]; norm_num
  refine ⟨rfl, hd, hi, ramp_rpm_formula rampTenSeconds 0 49 rfl hd hi, ?_, ?_⟩
  · norm_num [execTick, rampTenSeconds, durationSeconds, unitFactor]
  · norm_num [execTick, rampTenSeconds, durationSeconds, unitFactor]

/-- Counterexample to C4 as stated: for a Ramp of 0.55 s the final tick has
`elapsed = 0.6 > 0.55` (no clamping), and its commanded RPM `288/11 ≈ 26.2`
passes the target 24. -/
theorem ramp_overshoots_target :
    numTicks (durationSeconds rampOddDuration) = 6 ∧
    (execute_phase rampOddDuration 0).ticks[5]? = some (execTick rampOddDuration 0 6) ∧
    durationSeconds rampOddDuration < (execTick rampOddDuration 0 6).elapsed ∧
    rampOddDuration.rpm < (execTick rampOddDuration 0 6).rpm := by
  refine ⟨numTicks_rampOddDuration,
    execute_phase_ticks_get _ _ 5 (by rw [numTicks_rampOddDuration]; norm_num), ?_, ?_⟩
  · norm_num [execTick, rampOddDuration, durationSeconds, unitFactor]
  · norm_num [execTick, rampOddDuration, durationSeconds, unitFactor]

/-- C9 (amended): during a Ramp phase a speed command is sent at a tick
iff the count of completed `update_interval` boundaries
(`⌊elapsed / update_interval⌋`) increased since the previous tick, and the
total number of commands over the first `n` ticks is at most
`⌊(n/10) / update_interval⌋` — at most one per boundary crossed.  (Two
commands can still fall closer together than one `update_interval`; see the
counterexample.) -/
theorem ramp_send_iff_boundary (p : PhaseData) (start : ℚ) (i n : ℕ)
    (hm : p.mode = SpeedMode.ramp) (hu : 0 < p.update_interval.getD 1)
    (hi : i < numTicks (durationSeconds p)) (hn : n ≤ numTicks (durationSeconds p)) :
    (execute_phase p start).ticks[i]? = some (execTick p start (i + 1)) ∧
    ((execTick p start (i + 1)).cmds ≠ [] ↔
      ⌊((i : ℚ) / 10) / p.update_interval.getD 1⌋ <
        ⌊(((i : ℚ) + 1) / 10) / p.update_interval.getD 1⌋) ∧
    ((sendCount p start n : ℤ) ≤ ⌊((n : ℚ) / 10) / p.update_interval.getD 1⌋) := by
  refine ⟨execute_phase_ticks_get p start i hi, ?_, ?_⟩
  · have hstep : (execTick p start (i + 1)).cmds ≠ [] ↔
        rampSend (p.update_interval.getD 1) (i + 1) = true := by
      rw [execTick, hm]
      cases hrs : rampSend (p.update_interval.getD 1) (i + 1) <;> simp [hrs]
    rw [hstep, rampSend, decide_eq_true_eq]
    have hc1 : (((i + 1 : ℕ) : ℚ) - 1) = (i : ℚ) := by push_cast; ring
    have hc2 : (((i + 1 : ℕ) : ℚ)) = (i : ℚ) + 1 := by push_cast; ring
    rw [hc1, hc2]
    have h1 : (0 : ℚ) ≤ (i : ℚ) / 10 / p.update_interval.getD 1 :=
      div_nonneg (div_nonneg (by positivity) (by norm_num)) hu.le
    have h2 : (0 : ℚ) ≤ ((i : ℚ) + 1) / 10 / p.update_interval.getD 1 :=
      div_nonneg (div_nonneg (by positivity) (by norm_num)) hu.le
    rw [pyInt_eq_floor h1, pyInt_eq_floor h2]
  · rw [sendCount_eq_countP p start n hm hn]
    exact countP_rampSend_le _ hu n

/-- Witness for C9 on the 0.4 s ramp with `update_interval = 0.15`, at tick
index 1 with the 4-tick total. -/
theorem ramp_send_iff_boundary_witness :
    rampShortInterval.mode = SpeedMode.ramp ∧
    0 < rampShortInterval.update_interval.getD 1 ∧
    1 < numTicks (durationSeconds rampShortInterval) ∧
    4 ≤ numTicks (durationSeconds rampShortInterval) ∧
    ((execute_phase rampShortInterval 0).ticks[1]? =
        some (execTick rampShortInterval 0 (1 + 1)) ∧
     ((execTick rampShortInterval 0 (1 + 1)).cmds ≠ [] ↔
       ⌊(((1 : ℕ) : ℚ) / 10) / rampShortInterval.update_interval.getD 1⌋ <
         ⌊((((1 : ℕ) : ℚ) + 1) / 10) / rampShortInterval.update_interval.getD 1⌋) ∧
     ((sendCount rampShortInterval 0 4 : ℤ) ≤
       ⌊(((4 : ℕ) : ℚ) / 10) / rampShortInterval.update_interval.getD 1⌋)) := by
  have hu : 0 < rampShortInterval.update_interval.getD 1 := by
    norm_num [rampShortInterval]
  have hi : 1 < numTicks (durationSeconds rampShortInterval) := by
    rw [numTicks_rampShortInterval]; norm_num
  have hn : 4 ≤ numTicks (durationSeconds rampShortInterval) := by
    rw [numTicks_rampShortInterval]
  exact ⟨rfl, hu, hi, hn, ramp_send_iff_boundary rampShortInterval 0 1 4 rfl hu hi hn⟩

/-- Counterexample to C9's "at most one speed command per `update_interval`":
with `update_interval = 0.15` the ticks at 0.2 s and 0.3 s both send a
speed command, only 0.1 s < 0.15 s apart. -/
theorem ramp_two_sends_within_interval :
    (execute_phase rampShortInterval 0).ticks[1]? = some (execTick rampShortInterval 0 2) ∧
    (execute_phase rampShortInterval 0).ticks[2]? = some (execTick rampShortInterval 0 3) ∧
    (execTick rampShortInterval 0 2).cmds ≠ [] ∧
    (execTick rampShortInterval 0 3).cmds ≠ [] ∧
    (execTick rampShortInterval 0 3).elapsed - (execTick rampShortInterval 0 2).elapsed <
      rampShortInterval.update_interval.getD 1 := by
  have hs2 : rampSend ((3 : ℚ) / 20) 2 = true := by
    simp only [rampSend, decide_eq_true_eq]
    norm_num [pyInt]
  have hs3 : rampSend ((3 : ℚ) / 20) 3 = true := by
    simp only [rampSend, decide_eq_true_eq]
    norm_num [pyInt]
  refine ⟨execute_phase_ticks_get _ _ 1 (by rw [numTicks_rampShortInterval]; norm_num),
          execute_phase_ticks_get _ _ 2 (by rw [numTicks_rampShortInterval]; norm_num),
          ?_, ?_, ?_⟩
  · simp [execTick, rampShortInterval, hs2]
  · simp [execTick, rampShortInterval, hs3]
  · norm_num [execTick, rampShortInterval]

/-! ## Flatten loop lemmas (claims C1, C5) -/

/-- Effect of one continuing loop-body pass on `iterations` and the error
log: the log is unchanged and `iterations` grows by at most one. -/
theorem loopBody_cont_spec (seq : List PStep) (includeDisabled onlyDisabled : Bool)
    (s : LoopState) (s' : LoopState)
    (h : loopBody seq includeDisabled onlyDisabled s = StepRes.cont s') :
    s.iterations ≤ s'.iterations ∧ s'.iterations ≤ s.iterations + 1 ∧
    s'.invalidLog = s.invalidLog := by
  simp only [loopBody] at h
  repeat' split at h
  all_goals cases h
  all_goals dsimp only
  all_goals exact ⟨by omega, by omega, rfl⟩

/-- A breaking loop-body pass keeps `iterations` and `pc`, and identifies an
enabled Cycle at the current position whose jump target is out of bounds,
appending its `start_phase` to the log. -/
theorem loopBody_brk_spec (seq : List PStep) (includeDisabled onlyDisabled : Bool)
    (s : LoopState) (s' : LoopState)
    (h : loopBody seq includeDisabled onlyDisabled s = StepRes.brk s') :
    s'.iterations = s.iterations ∧ s'.pc = s.pc ∧
    ∃ c, seq.get? s.pc = some (PStep.cycle c) ∧ c.enabled = true ∧
      ¬(0 ≤ c.start_phase - 1 ∧ c.start_phase - 1 < (seq.length : ℤ)) ∧
      s'.invalidLog = s.invalidLog ++ [c.start_phase] := by
  simp only [loopBody] at h
  repeat' split at h
  all_goals cases h
  all_goals dsimp only
  all_goals exact ⟨rfl, rfl, _, by assumption, by assumption, by assumption, rfl⟩

/-- The final `iterations` of a run never exceeds the ceiling. -/
theorem runLoop_iter_le (seq : List PStep) (includeDisabled onlyDisabled : Bool) :
    ∀ (f : ℕ) (s : LoopState), s.iterations ≤ MAX_ITER →
      (runLoop seq includeDisabled onlyDisabled f s).1.iterations ≤ MAX_ITER := by
  intro f
  induction f with
  | zero => intro s h; simpa [runLoop] using h
  | succ f ih =>
    intro s h
    rw [runLoop]
    split
    · rename_i hc
      cases hb : loopBody seq includeDisabled onlyDisabled s with
      | cont s' =>
        apply ih
        have := (loopBody_cont_spec seq includeDisabled onlyDisabled s s' hb).2.1
        omega
      | brk s' =>
        have := (loopBody_brk_spec seq includeDisabled onlyDisabled s s' hb).1
        simpa [this] using hc.2.le
    · exact h

/-- A run that did not break leaves the error log unchanged. -/
theorem runLoop_not_brk_log (seq : List PStep) (includeDisabled onlyDisabled : Bool) :
    ∀ (f : ℕ) (s : LoopState),
      (runLoop seq includeDisabled onlyDisabled f s).2 = false →
      (runLoop seq includeDisabled onlyDisabled f s).1.invalidLog = s.invalidLog := by
  intro f
  induction f with
  | zero => intro s _; simp [runLoop]
  | succ f ih =>
    intro s hb2
    rw [runLoop] at hb2 ⊢
    split at hb2
    · rename_i hc
      rw [if_pos hc]
      cases hb : loopBody seq includeDisabled onlyDisabled s with
      | cont s' =>
        simp only [hb] at hb2 ⊢
        rw [ih s' hb2]
        exact (loopBody_cont_spec seq includeDisabled onlyDisabled s s' hb).2.2
      | brk s' =>
        simp only [hb] at hb2
        cases hb2
    · rename_i hc
      rw [if_neg hc]

/-- A run that broke did so on an enabled Cycle with an out-of-bounds jump
target: its `start_phase` is appended to the log, and `iterations` stays
strictly below the ceiling, so the subsequent overflow check cannot fire. -/
theorem runLoop_brk_log (seq : List PStep) (includeDisabled onlyDisabled : Bool) :
    ∀ (f : ℕ) (s : LoopState),
      (runLoop seq includeDisabled onlyDisabled f s).2 = true →
      (runLoop seq includeDisabled onlyDisabled f s).1.iterations < MAX_ITER ∧
      ∃ j c, seq.get? j = some (PStep.cycle c) ∧ c.enabled = true ∧
        ¬(0 ≤ c.start_phase - 1 ∧ c.start_phase - 1 < (seq.length : ℤ)) ∧
        (runLoop seq includeDisabled onlyDisabled f s).1.invalidLog =
          s.invalidLog ++ [c.start_phase] := by
  intro f
  induction f with
  | zero => intro s hb2; simp [runLoop] at hb2
  | succ f ih =>
    intro s hb2
    rw [runLoop] at hb2 ⊢
    split at hb2
    · rename_i hc
      rw [if_pos hc]
      cases hb : loopBody seq includeDisabled onlyDisabled s with
      | cont s' =>
        simp only [hb] at hb2 ⊢
        obtain ⟨hit, j, c, h1, h2, h3, h4⟩ := ih s' hb2
        refine ⟨hit, j, c, h1, h2, h3, ?_⟩
        rw [h4, (loopBody_cont_spec seq includeDisabled onlyDisabled s s' hb).2.2]
      | brk s' =>
        simp only [hb] at hb2 ⊢
        obtain ⟨hit, _hpc, c, h1, h2, h3, h4⟩ :=
          loopBody_brk_spec seq includeDisabled onlyDisabled s s' hb
        exact ⟨by simpa [hit] using hc.2, s.pc, c, h1, h2, h3, h4⟩
    · cases hb2

/-- The flatten result's log is the final loop state's log. -/
theorem flatten_invalidLog_eq (seq : List PStep) (includeDisabled onlyDisabled : Bool) :
    (flatten_sequence_for_plot seq includeDisabled onlyDisabled).invalidLog =
      (flattenRun seq includeDisabled onlyDisabled).1.invalidLog := by
  simp only [flatten_sequence_for_plot]
  split <;> rfl

/-- The flatten result raises exactly when the final `iterations` reached
the ceiling. -/
theorem flatten_raised_iff (seq : List PStep) (includeDisabled onlyDisabled : Bool) :
    (flatten_sequence_for_plot seq includeDisabled onlyDisabled).raised = true ↔
      MAX_ITER ≤ (flattenRun seq includeDisabled onlyDisabled).1.iterations := by
  simp only [flatten_sequence_for_plot]
  split
  · rename_i hc; simpa using hc
  · rename_i hc; simpa using hc

/-! ## Claim C1 — invalid loop target -/

/-- C1 (amended): a flatten run that hits an enabled Cycle with an
out-of-bounds `start_index` does not fail: it logs an error naming the
offending Cycle's `start_phase`, abandons the expansion, and returns the
segments flattened so far — no exception is raised.  Formally: whenever the
invalid-target log is nonempty, the result is a returned list
(`raised = false`), and the single log entry is the `start_phase` of an
enabled Cycle of the program whose 0-based target `start_phase − 1` lies
outside `[0, length)`. -/
theorem flatten_invalid_target_logs_and_returns (seq : List PStep)
    (includeDisabled onlyDisabled : Bool)
    (h : (flatten_sequence_for_plot seq includeDisabled onlyDisabled).invalidLog ≠ []) :
    (flatten_sequence_for_plot seq includeDisabled onlyDisabled).raised = false ∧
    ∃ j c, seq.get? j = some (PStep.cycle c) ∧ c.enabled = true ∧
      ¬(0 ≤ c.start_phase - 1 ∧ c.start_phase - 1 < (seq.length : ℤ)) ∧
      (flatten_sequence_for_plot seq includeDisabled onlyDisabled).invalidLog =
        [c.start_phase] := by
  rw [flatten_invalidLog_eq] at h ⊢
  cases hb : (flattenRun seq includeDisabled onlyDisabled).2
  · exact absurd (runLoop_not_brk_log seq includeDisabled onlyDisabled
      (flattenFuel seq) initState hb) h
  · obtain ⟨hit, j, c, h1, h2, h3, h4⟩ :=
      runLoop_brk_log seq includeDisabled onlyDisabled (flattenFuel seq) initState hb
    refine ⟨?_, j, c, h1, h2, h3, by simpa [initState] using h4⟩
    have hit2 : (flattenRun seq includeDisabled onlyDisabled).1.iterations < MAX_ITER := hit
    have hr := flatten_raised_iff seq includeDisabled onlyDisabled
    cases hraised : (flatten_sequence_for_plot seq includeDisabled onlyDisabled).raised
    · rfl
    · exact absurd (hr.mp hraised) (by omega)

/-- Witness for C1's amended theorem: the one-step program whose Cycle
targets position 5 logs `5` and returns an empty flat list. -/
theorem flatten_invalid_target_logs_and_returns_witness :
    (flatten_sequence_for_plot invalidTargetSeq false false).invalidLog ≠ [] ∧
    ((flatten_sequence_for_plot invalidTargetSeq false false).raised = false ∧
     ∃ j c, invalidTargetSeq.get? j = some (PStep.cycle c) ∧ c.enabled = true ∧
       ¬(0 ≤ c.start_phase - 1 ∧ c.start_phase - 1 < (invalidTargetSeq.length : ℤ)) ∧
       (flatten_sequence_for_plot invalidTargetSeq false false).invalidLog =
         [c.start_phase]) :=
  ⟨by decide, flatten_invalid_target_logs_and_returns invalidTargetSeq false false
    (by decide)⟩

/-- Counterexample to C1 as stated: the flatten operation does not fail on
an enabled out-of-bounds Cycle — on this program it completes and returns
the (empty) list of segments, merely logging start phase 5. -/
theorem flatten_invalid_target_no_failure :
    invalidTargetSeq = [PStep.cycle ⟨5, 5, 1, (true : Bool)⟩] ∧
    (flatten_sequence_for_plot invalidTargetSeq false false).raised = false ∧
    (flatten_sequence_for_plot invalidTargetSeq false false).invalidLog = [5] ∧
    (flatten_sequence_for_plot invalidTargetSeq false false).flat = [] := by
  refine ⟨rfl, ?_, ?_, ?_⟩ <;> decide

/-! ## Claim C5 — the overflow ceiling -/

/-- C5 (amended): the flattener raises `LoopOverflowError` exactly when the
loop's final `iterations` count has reached the ceiling `MAX_ITER = 10000`;
the count never exceeds the ceiling.  A program whose expansion completes in
at most 9,999 counted steps therefore returns normally, but one completing
in exactly 10,000 steps raises the error even though its expansion is
complete (see the counterexample). -/
theorem flatten_raises_iff_ceiling (seq : List PStep)
    (includeDisabled onlyDisabled : Bool) :
    ((flatten_sequence_for_plot seq includeDisabled onlyDisabled).raised = true ↔
      (flattenRun seq includeDisabled onlyDisabled).1.iterations = MAX_ITER) ∧
    (flattenRun seq includeDisabled onlyDisabled).1.iterations ≤ MAX_ITER := by
  have hle : (flattenRun seq includeDisabled onlyDisabled).1.iterations ≤ MAX_ITER :=
    runLoop_iter_le seq includeDisabled onlyDisabled (flattenFuel seq) initState
      (by simp [initState])
  refine ⟨?_, hle⟩
  rw [flatten_raised_iff]
  omega

/-- When the loop condition fails the loop returns the state unchanged,
regardless of remaining fuel. -/
theorem runLoop_stop (seq : List PStep) (a b : Bool) (f : ℕ) (s : LoopState)
    (h : ¬(s.pc < seq.length ∧ s.iterations < MAX_ITER)) :
    runLoop seq a b f s = (s, false) := by
  cases f with
  | zero => rfl
  | succ f => rw [runLoop, if_neg h]

/-- Round `j` of `phaseCycleSeq r`, Phase pass: append the phase, advance
to the Cycle. -/
theorem phaseCycle_stepA (r j : ℕ) :
    loopBody (phaseCycleSeq r) false false (phaseCycleState r j) =
      StepRes.cont (phaseCycleMid r j) := by
  simp [loopBody, phaseCycleSeq, phaseCycleState, phaseCycleMid, stepEnabled, phW]

/-- Round `j < r`, Cycle pass: the counter (lazily `r`) is positive, so it
is decremented and the program counter jumps back to position 0. -/
theorem phaseCycle_stepB_lt (r j : ℕ) (hjr : j < r) :
    loopBody (phaseCycleSeq r) false false (phaseCycleMid r j) =
      StepRes.cont (phaseCycleState r (j + 1)) := by
  have hpos : (0 : ℤ) < (r : ℤ) - (j : ℤ) := by
    have : (j : ℤ) < (r : ℤ) := by exact_mod_cast hjr
    omega
  by_cases hj0 : j = 0
  · subst hj0
    have hr0 : (0 : ℤ) < (r : ℤ) := by simpa using hpos
    simp [loopBody, phaseCycleSeq, phaseCycleMid, phaseCycleState, stepEnabled,
      lookupC, decC, hr0, List.replicate_succ, Nat.mul_succ]
  · simp [loopBody, phaseCycleSeq, phaseCycleMid, phaseCycleState, stepEnabled,
      lookupC, decC, hj0, hpos, List.replicate_succ, Nat.mul_succ]
    omega

/-- Final Cycle pass: the counter has reached 0, so it is deleted and the
program counter advances past the end. -/
theorem phaseCycle_stepB_eq (r : ℕ) :
    loopBody (phaseCycleSeq r) false false (phaseCycleMid r r) =
      StepRes.cont (phaseCycleFinal r) := by
  by_cases hr0 : r = 0
  · subst hr0
    simp [loopBody, phaseCycleSeq, phaseCycleMid, phaseCycleFinal, stepEnabled,
      lookupC, delC]
  · simp [loopBody, phaseCycleSeq, phaseCycleMid, phaseCycleFinal, stepEnabled,
      lookupC, delC, hr0, List.replicate_succ, Nat.mul_succ]

/-- Closed form of the whole flatten run of `phaseCycleSeq r`: starting
`n` rounds before the end, the loop reaches the final state, never breaking
and never hitting the fuel bound, provided the total `2r + 2` counted
iterations fit under the ceiling. -/
theorem phaseCycle_runLoop (r : ℕ) (hmax : 2 * r + 2 ≤ MAX_ITER) :
    ∀ (n f : ℕ), n ≤ r → 2 * n + 2 ≤ f →
      runLoop (phaseCycleSeq r) false false f (phaseCycleState r (r - n)) =
        (phaseCycleFinal r, false) := by
  intro n
  induction n with
  | zero =>
    intro f _ hf
    obtain ⟨f', rfl⟩ : ∃ f', f = f' + 2 := ⟨f - 2, by omega⟩
    have hc1 : (phaseCycleState r (r - 0)).pc < (phaseCycleSeq r).length ∧
        (phaseCycleState r (r - 0)).iterations < MAX_ITER := by
      refine ⟨by norm_num [phaseCycleState, phaseCycleSeq], ?_⟩
      show 2 * (r - 0) < MAX_ITER
      omega
    rw [runLoop, if_pos hc1, phaseCycle_stepA]
    dsimp only
    have hc2 : (phaseCycleMid r (r - 0)).pc < (phaseCycleSeq r).length ∧
        (phaseCycleMid r (r - 0)).iterations < MAX_ITER := by
      refine ⟨by norm_num [phaseCycleMid, phaseCycleSeq], ?_⟩
      show 2 * (r - 0) + 1 < MAX_ITER
      omega
    rw [runLoop, if_pos hc2]
    rw [show r - 0 = r from rfl, phaseCycle_stepB_eq]
    dsimp only
    apply runLoop_stop
    intro hcond
    have : (phaseCycleFinal r).pc < (phaseCycleSeq r).length := hcond.1
    norm_num [phaseCycleFinal, phaseCycleSeq] at this
  | succ n ih =>
    intro f hn hf
    obtain ⟨f', rfl⟩ : ∃ f', f = f' + 2 := ⟨f - 2, by omega⟩
    have hjr : r - (n + 1) < r := by omega
    have hstep : r - (n + 1) + 1 = r - n := by omega
    have hc1 : (phaseCycleState r (r - (n + 1))).pc < (phaseCycleSeq r).length ∧
        (phaseCycleState r (r - (n + 1))).iterations < MAX_ITER := by
      refine ⟨by norm_num [phaseCycleState, phaseCycleSeq], ?_⟩
      show 2 * (r - (n + 1)) < MAX_ITER
      omega
    rw [runLoop, if_pos hc1, phaseCycle_stepA]
    dsimp only
    have hc2 : (phaseCycleMid r (r - (n + 1))).pc < (phaseCycleSeq r).length ∧
        (phaseCycleMid r (r - (n + 1))).iterations < MAX_ITER := by
      refine ⟨by norm_num [phaseCycleMid, phaseCycleSeq], ?_⟩
      show 2 * (r - (n + 1)) + 1 < MAX_ITER
      omega
    rw [runLoop, if_pos hc2, phaseCycle_stepB_lt r (r - (n + 1)) hjr]
    dsimp only
    rw [hstep]
    exact ih f' (by omega) (by omega)

/-- With `repeats = 4999` the expansion completes (pc = 2 past the end)
after exactly 10000 counted iterations. -/
theorem phaseCycle4999_final :
    flattenRun (phaseCycleSeq 4999) false false = (phaseCycleFinal 4999, false) := by
  have h := phaseCycle_runLoop 4999 (by norm_num [MAX_ITER]) 4999
    (flattenFuel (phaseCycleSeq 4999)) le_rfl
    (by norm_num [flattenFuel, phaseCycleSeq, MAX_ITER])
  have h0 : (4999 : ℕ) - 4999 = 0 := by norm_num
  rw [h0] at h
  have hinit : phaseCycleState 4999 0 = initState := by
    simp [phaseCycleState, initState]
  rw [hinit] at h
  exact h

/-- The completed `phaseCycleSeq 4999` expansion nevertheless raises the
overflow error, because `iterations >= MAX_ITER` holds at loop exit. -/
theorem phaseCycle4999_raised :
    (flatten_sequence_for_plot (phaseCycleSeq 4999) false false).raised = true := by
  apply (flatten_raised_iff _ _ _).mpr
  rw [phaseCycle4999_final]
  norm_num [phaseCycleFinal, MAX_ITER]

/-- Counterexample to C5 as stated: `phaseCycleSeq 4999` completes its
expansion within the ceiling (the loop exits because `pc` passed the end,
with `iterations = 10000`, not more), yet `_flatten_sequence_for_plot`
raises the overflow error. -/
theorem flatten_overflow_at_exact_ceiling :
    (flattenRun (phaseCycleSeq 4999) false false).1.pc = (phaseCycleSeq 4999).length ∧
    (flattenRun (phaseCycleSeq 4999) false false).2 = false ∧
    (flattenRun (phaseCycleSeq 4999) false false).1.iterations = MAX_ITER ∧
    (flatten_sequence_for_plot (phaseCycleSeq 4999) false false).raised = true := by
  refine ⟨?_, ?_, ?_, phaseCycle4999_raised⟩ <;> rw [phaseCycle4999_final] <;>
    norm_num [phaseCycleFinal, phaseCycleSeq, MAX_ITER]

/-! ## Claim C10 — overflow reported as zero planned duration -/

/-- C10 (confirmed): when the flattener raises its overflow error, the
total-duration computation catches it and returns 0. -/
theorem total_duration_zero_on_overflow (seq : List PStep) (includeDisabled : Bool)
    (h : (flatten_sequence_for_plot seq includeDisabled false).raised = true) :
    calculate_total_duration seq includeDisabled = 0 := by
  simp [calculate_total_duration, h]

/-- Witness for C10: the runaway-by-one program raises, and its total
planned duration is reported as 0. -/
theorem total_duration_zero_on_overflow_witness :
    (flatten_sequence_for_plot (phaseCycleSeq 4999) false false).raised = true ∧
    calculate_total_duration (phaseCycleSeq 4999) false = 0 :=
  ⟨phaseCycle4999_raised,
   total_duration_zero_on_overflow (phaseCycleSeq 4999) false phaseCycle4999_raised⟩


/-! ## Claim C7 — cycle jump counting -/

/-- Looking up the key just inserted. -/
theorem lookupC_cons_self (j : ℕ) (v : ℤ) (m : List (ℕ × ℤ)) :
    lookupC ((j, v) :: m) j = some v := by
  simp [lookupC]

/-- Inserting another key does not change a lookup. -/
theorem lookupC_cons_ne (j : ℕ) (v : ℤ) (m : List (ℕ × ℤ)) (i : ℕ) (h : j ≠ i) :
    lookupC ((j, v) :: m) i = lookupC m i := by
  simp [lookupC, h]

/-- Decrementing key `i` decrements its looked-up value. -/
theorem lookupC_decC_eq (m : List (ℕ × ℤ)) (i : ℕ) :
    lookupC (decC m i) i = (lookupC m i).map (fun v => v - 1) := by
  induction m with
  | nil => simp [lookupC, decC]
  | cons kv m ih =>
    obtain ⟨k, v⟩ := kv
    by_cases hk : k = i
    · subst hk
      simp [decC, lookupC]
    · simp [decC, lookupC, hk, ih]

/-- Decrementing another key does not change a lookup. -/
theorem lookupC_decC_ne (m : List (ℕ × ℤ)) (j i : ℕ) (h : j ≠ i) :
    lookupC (decC m j) i = lookupC m i := by
  induction m with
  | nil => simp [decC]
  | cons kv m ih =>
    obtain ⟨k, v⟩ := kv
    by_cases hk : k = j
    · subst hk
      simp [decC, lookupC, h, ih]
    · by_cases hki : k = i
      · subst hki
        simp [decC, lookupC, hk]
      · simp [decC, lookupC, hk, hki, ih]

/-- Deleting key `i` removes it. -/
theorem lookupC_delC_eq (m : List (ℕ × ℤ)) (i : ℕ) :
    lookupC (delC m i) i = none := by
  induction m with
  | nil => simp [lookupC, delC]
  | cons kv m ih =>
    obtain ⟨k, v⟩ := kv
    by_cases hk : k = i
    · subst hk
      simp [delC, ih]
    · simp [delC, lookupC, hk, ih]

/-- Deleting another key does not change a lookup. -/
theorem lookupC_delC_ne (m : List (ℕ × ℤ)) (j i : ℕ) (h : j ≠ i) :
    lookupC (delC m j) i = lookupC m i := by
  induction m with
  | nil => simp [delC]
  | cons kv m ih =>
    obtain ⟨k, v⟩ := kv
    by_cases hk : k = j
    · subst hk
      simp [delC, lookupC, h, ih]
    · by_cases hki : k = i
      · subst hki
        simp [delC, lookupC, hk]
      · simp [delC, lookupC, hk, hki, ih]

/-- A loop-body pass at a position other than `i` leaves the counter at
`i` untouched (all counter edits are keyed by the current `pc`). -/
theorem loopBody_counters_ne (seq : List PStep) (includeDisabled onlyDisabled : Bool)
    (s : LoopState) (i : ℕ) (hne : s.pc ≠ i) (s' : LoopState)
    (h : loopBody seq includeDisabled onlyDisabled s = StepRes.cont s' ∨
         loopBody seq includeDisabled onlyDisabled s = StepRes.brk s') :
    lookupC s'.counters i = lookupC s.counters i := by
  rcases h with h | h <;>
    (simp only [loopBody] at h
     repeat' split at h
     all_goals cases h
     all_goals dsimp only
     all_goals simp [lookupC_decC_ne, lookupC_delC_ne, lookupC_cons_ne, hne])

/-- No lazy initialization at `i` when the program counter is elsewhere. -/
theorem initEvent_pc_ne (seq : List PStep) (onlyDisabled : Bool) (i : ℕ)
    (s : LoopState) (hne : s.pc ≠ i) : initEvent seq onlyDisabled i s = false := by
  simp [initEvent, hne]

/-- No jump from `i` when the program counter is elsewhere. -/
theorem jumpEvent_pc_ne (seq : List PStep) (onlyDisabled : Bool) (i : ℕ)
    (s : LoopState) (hne : s.pc ≠ i) : jumpEvent seq onlyDisabled i s = false := by
  simp [jumpEvent, hne]

/-- The loop body at an enabled in-bounds Cycle: lazily initialize the
counter, then either decrement-and-jump or delete-and-advance. -/
theorem loopBody_at_cycle (seq : List PStep) (includeDisabled : Bool) (i : ℕ)
    (c : CycleData) (hc : seq.get? i = some (PStep.cycle c)) (hen : c.enabled = true)
    (hin : 0 ≤ c.start_phase - 1 ∧ c.start_phase - 1 < (seq.length : ℤ))
    (s : LoopState) (hpc : s.pc = i) :
    loopBody seq includeDisabled false s =
      (if 0 < (lookupC s.counters i).getD c.repeats then
        StepRes.cont { s with
          counters := decC (if (lookupC s.counters i).isNone then
              (i, c.repeats) :: s.counters else s.counters) i,
          pc := (c.start_phase - 1).toNat,
          iterations := s.iterations + 1 }
       else
        StepRes.cont { s with
          counters := delC (if (lookupC s.counters i).isNone then
              (i, c.repeats) :: s.counters else s.counters) i,
          pc := s.pc + 1,
          iterations := s.iterations + 1 }) := by
  subst hpc
  have hc2 : seq[s.pc]? = some (PStep.cycle c) := by
    rw [← List.get?_eq_getElem?]
    exact hc
  simp [loopBody, hc2, hen, hin, stepEnabled]

/-- At the Cycle's own position the init event fires exactly when the
counter is absent. -/
theorem initEvent_at (seq : List PStep) (i : ℕ) (c : CycleData)
    (hc : seq.get? i = some (PStep.cycle c)) (hen : c.enabled = true)
    (s : LoopState) (hpc : s.pc = i) :
    initEvent seq false i s = (lookupC s.counters i).isNone := by
  have hc2 : seq[i]? = some (PStep.cycle c) := by
    rw [← List.get?_eq_getElem?]
    exact hc
  simp [initEvent, hpc, cycleAt, hc2, hen]

/-- At the Cycle's own position (target in bounds) the jump event fires
exactly when the effective counter is positive. -/
theorem jumpEvent_at (seq : List PStep) (i : ℕ) (c : CycleData)
    (hc : seq.get? i = some (PStep.cycle c)) (hen : c.enabled = true)
    (hin : 0 ≤ c.start_phase - 1 ∧ c.start_phase - 1 < (seq.length : ℤ))
    (s : LoopState) (hpc : s.pc = i) :
    jumpEvent seq false i s = decide (0 < (lookupC s.counters i).getD c.repeats) := by
  have hc2 : seq[i]? = some (PStep.cycle c) := by
    rw [← List.get?_eq_getElem?]
    exact hc
  simp [jumpEvent, hpc, cycleAt, hc2, hen, hin]

/-- The loop body at an enabled in-bounds Cycle whose counter is absent:
the counter initializes to `repeats` before the decrement or deletion. -/
theorem loopBody_at_cycle_none (seq : List PStep) (includeDisabled : Bool) (i : ℕ)
    (c : CycleData) (hc : seq.get? i = some (PStep.cycle c)) (hen : c.enabled = true)
    (hin : 0 ≤ c.start_phase - 1 ∧ c.start_phase - 1 < (seq.length : ℤ))
    (s : LoopState) (hpc : s.pc = i) (hlk : lookupC s.counters i = none) :
    loopBody seq includeDisabled false s =
      (if 0 < c.repeats then
        StepRes.cont { s with counters := decC ((i, c.repeats) :: s.counters) i,
                              pc := (c.start_phase - 1).toNat,
                              iterations := s.iterations + 1 }
       else
        StepRes.cont { s with counters := delC ((i, c.repeats) :: s.counters) i,
                              pc := s.pc + 1,
                              iterations := s.iterations + 1 }) := by
  rw [loopBody_at_cycle seq includeDisabled i c hc hen hin s hpc, hlk]
  simp

/-- The loop body at an enabled in-bounds Cycle whose counter is present. -/
theorem loopBody_at_cycle_some (seq : List PStep) (includeDisabled : Bool) (i : ℕ)
    (c : CycleData) (hc : seq.get? i = some (PStep.cycle c)) (hen : c.enabled = true)
    (hin : 0 ≤ c.start_phase - 1 ∧ c.start_phase - 1 < (seq.length : ℤ))
    (s : LoopState) (hpc : s.pc = i) (v : ℤ) (hlk : lookupC s.counters i = some v) :
    loopBody seq includeDisabled false s =
      (if 0 < v then
        StepRes.cont { s with counters := decC s.counters i,
                              pc := (c.start_phase - 1).toNat,
                              iterations := s.iterations + 1 }
       else
        StepRes.cont { s with counters := delC s.counters i,
                              pc := s.pc + 1,
                              iterations := s.iterations + 1 }) := by
  rw [loopBody_at_cycle seq includeDisabled i c hc hen hin s hpc, hlk]
  simp

/-- The counter-accounting invariant of the flatten loop: for an enabled
Cycle at position `i` with an in-bounds target and nonnegative `repeats`,
along any run
`(number of lazy initializations) × repeats + starting budget =
(number of jumps) + budget left at the end`, where the budget is the
counter value at `i` (0 when absent). -/
theorem runLoop_counter_acc (seq : List PStep) (includeDisabled : Bool) (i : ℕ)
    (c : CycleData) (hc : seq.get? i = some (PStep.cycle c)) (hen : c.enabled = true)
    (hin : 0 ≤ c.start_phase - 1 ∧ c.start_phase - 1 < (seq.length : ℤ))
    (hrep : 0 ≤ c.repeats) :
    ∀ (f : ℕ) (s : LoopState), 0 ≤ (lookupC s.counters i).getD 0 →
      ((runTrace seq includeDisabled false f s).countP
          (initEvent seq false i) : ℤ) * c.repeats +
        (lookupC s.counters i).getD 0 =
      ((runTrace seq includeDisabled false f s).countP
          (jumpEvent seq false i) : ℤ) +
        (lookupC (runLoop seq includeDisabled false f s).1.counters i).getD 0 := by
  intro f
  induction f with
  | zero => intro s _; simp [runTrace, runLoop]
  | succ f ih =>
    intro s hinv
    rw [runTrace, runLoop]
    by_cases hcond : s.pc < seq.length ∧ s.iterations < MAX_ITER
    case neg => rw [if_neg hcond, if_neg hcond]; simp
    case pos =>
    rw [if_pos hcond, if_pos hcond]
    by_cases hpci : s.pc = i
    · have hie' := initEvent_at seq i c hc hen s hpci
      have hje' := jumpEvent_at seq i c hc hen hin s hpci
      rcases hlk : lookupC s.counters i with _ | v
      · rw [hlk, Option.isNone_none] at hie'
        rw [hlk, Option.getD_none] at hje'
        rw [loopBody_at_cycle_none seq includeDisabled i c hc hen hin s hpci hlk]
        simp only [Option.getD_none]
        by_cases hpos : 0 < c.repeats
        · rw [if_pos hpos]
          dsimp only
          rw [List.countP_cons_of_pos _ _ hie',
            List.countP_cons_of_pos _ _
              (show jumpEvent seq false i s = true by
                rw [hje']; exact decide_eq_true hpos)]
          have hlk1 : lookupC (decC ((i, c.repeats) :: s.counters) i) i =
              some (c.repeats - 1) := by
            rw [lookupC_decC_eq, lookupC_cons_self]
            rfl
          have hIH := ih { s with
              counters := decC ((i, c.repeats) :: s.counters) i,
              pc := (c.start_phase - 1).toNat,
              iterations := s.iterations + 1 }
            (by dsimp only; rw [hlk1, Option.getD_some]; omega)
          dsimp only at hIH ⊢
          rw [hlk1, Option.getD_some] at hIH
          push_cast
          linarith [hIH]
        · rw [if_neg hpos]
          dsimp only
          rw [List.countP_cons_of_pos _ _ hie',
            List.countP_cons_of_neg _ _
              (show ¬jumpEvent seq false i s = true by simp [hje', hpos])]
          have hrep0 : c.repeats = 0 := by omega
          have hlk1 : lookupC (delC ((i, c.repeats) :: s.counters) i) i = none :=
            lookupC_delC_eq _ _
          have hIH := ih { s with
              counters := delC ((i, c.repeats) :: s.counters) i,
              pc := s.pc + 1,
              iterations := s.iterations + 1 }
            (by dsimp only; rw [hlk1]; simp)
          dsimp only at hIH ⊢
          rw [hlk1, Option.getD_none] at hIH
          rw [hrep0] at hIH ⊢
          push_cast
          linarith [hIH]
      · rw [hlk, Option.isNone_some] at hie'
        rw [hlk, Option.getD_some] at hje'
        rw [loopBody_at_cycle_some seq includeDisabled i c hc hen hin s hpci v hlk]
        simp only [Option.getD_some]
        have hvnn : 0 ≤ v := by rw [hlk, Option.getD_some] at hinv; exact hinv
        by_cases hpos : 0 < v
        · rw [if_pos hpos]
          dsimp only
          rw [List.countP_cons_of_neg _ _
              (show ¬initEvent seq false i s = true by simp [hie']),
            List.countP_cons_of_pos _ _
              (show jumpEvent seq false i s = true by
                rw [hje']; exact decide_eq_true hpos)]
          have hlk1 : lookupC (decC s.counters i) i = some (v - 1) := by
            rw [lookupC_decC_eq, hlk]
            rfl
          have hIH := ih { s with
              counters := decC s.counters i,
              pc := (c.start_phase - 1).toNat,
              iterations := s.iterations + 1 }
            (by dsimp only; rw [hlk1, Option.getD_some]; omega)
          dsimp only at hIH ⊢
          rw [hlk1, Option.getD_some] at hIH
          push_cast
          linarith [hIH]
        · rw [if_neg hpos]
          dsimp only
          rw [List.countP_cons_of_neg _ _
              (show ¬initEvent seq false i s = true by simp [hie']),
            List.countP_cons_of_neg _ _
              (show ¬jumpEvent seq false i s = true by simp [hje', hpos])]
          have hv0 : v = 0 := by omega
          have hlk1 : lookupC (delC s.counters i) i = none := lookupC_delC_eq _ _
          have hIH := ih { s with
              counters := delC s.counters i,
              pc := s.pc + 1,
              iterations := s.iterations + 1 }
            (by dsimp only; rw [hlk1]; simp)
          dsimp only at hIH ⊢
          rw [hlk1, Option.getD_none] at hIH
          rw [hv0]
          linarith [hIH]
    · cases hb : loopBody seq includeDisabled false s with
      | cont s' =>
        dsimp only
        rw [List.countP_cons_of_neg _ _
            (show ¬initEvent seq false i s = true by
              simp [initEvent_pc_ne seq false i s hpci]),
          List.countP_cons_of_neg _ _
            (show ¬jumpEvent seq false i s = true by
              simp [jumpEvent_pc_ne seq false i s hpci])]
        have hcne := loopBody_counters_ne seq includeDisabled false s i hpci s' (Or.inl hb)
        have hIH := ih s' (by rw [hcne]; exact hinv)
        rw [hcne] at hIH
        exact hIH
      | brk s' =>
        dsimp only
        rw [List.countP_cons_of_neg _ _
            (show ¬initEvent seq false i s = true by
              simp [initEvent_pc_ne seq false i s hpci]),
          List.countP_cons_of_neg _ _
            (show ¬jumpEvent seq false i s = true by
              simp [jumpEvent_pc_ne seq false i s hpci])]
        have hcne := loopBody_counters_ne seq includeDisabled false s i hpci s' (Or.inr hb)
        rw [List.countP_nil, List.countP_nil, hcne]
        simp

/-- C7 (amended): for an enabled Cycle with an in-bounds `start_index` and
`repeats = n ≥ 0`, a flatten run jumps to `start_index − 1` exactly
`(number of lazy counter initializations) × n  −  (counter value left at
exit)` times: each activation of the Cycle (from lazy initialization to
counter removal) contributes exactly `n` jumps, but a Cycle position
re-visited after its counter was removed re-initializes and jumps again,
so the global jump count can exceed `n` (see the counterexample). -/
theorem cycle_jump_accounting (seq : List PStep) (includeDisabled : Bool) (i : ℕ)
    (c : CycleData)
    (hc : seq.get? i = some (PStep.cycle c)) (hen : c.enabled = true)
    (hin : 0 ≤ c.start_phase - 1 ∧ c.start_phase - 1 < (seq.length : ℤ))
    (hrep : 0 ≤ c.repeats) :
    (initsAt seq includeDisabled false i : ℤ) * c.repeats =
      (jumpsAt seq includeDisabled false i : ℤ) +
        finalCounterAt seq includeDisabled false i := by
  have h := runLoop_counter_acc seq includeDisabled i c hc hen hin hrep
    (flattenFuel seq) initState (by simp [initState, lookupC])
  simpa [initsAt, jumpsAt, finalCounterAt, flattenTrace, flattenRun, initState,
    lookupC] using h

/-- Witness for C7's amended accounting on a single 3-repeat Cycle: one
initialization, three jumps, counter gone at exit. -/
theorem cycle_jump_accounting_witness :
    threeRepeatSeq.get? 1 = some (PStep.cycle ⟨1, 1, 3, (true : Bool)⟩) ∧
    (0 : ℤ) ≤ (1 : ℤ) - 1 ∧ (1 : ℤ) - 1 < (threeRepeatSeq.length : ℤ) ∧
    ((initsAt threeRepeatSeq false false 1 : ℤ) * 3 =
      (jumpsAt threeRepeatSeq false false 1 : ℤ) +
        finalCounterAt threeRepeatSeq false false 1) ∧
    initsAt threeRepeatSeq false false 1 = 1 ∧
    jumpsAt threeRepeatSeq false false 1 = 3 ∧
    finalCounterAt threeRepeatSeq false false 1 = 0 := by
  refine ⟨by decide, by decide, by decide, ?_, by decide, by decide, by decide⟩
  exact cycle_jump_accounting threeRepeatSeq false 1 ⟨1, 1, 3, (true : Bool)⟩
    (by decide) (by decide) (by decide) (by decide)

/-- Counterexample to C7 as stated: in `reenterSeq` the Cycle at position 1
has `repeats = 1` but the flatten run jumps to its target twice (its
counter re-initializes after Cycle B re-enters it), and the phase is
flattened 4 times rather than 3. -/
theorem cycle_jump_count_exceeds_repeats :
    cycleAt reenterSeq 1 = some ⟨1, 1, 1, (true : Bool)⟩ ∧
    jumpsAt reenterSeq false false 1 = 2 ∧
    (flatten_sequence_for_plot reenterSeq false false).flat.length = 4 := by
  refine ⟨by decide, by decide, by decide⟩

end Minipuls
